import Mathlib

/-!
# Verification of the posthoc EMA reconstruction machinery

This development shallowly embeds the numerical core of
`diffusion_policy/scripts/recon_ema.py`:

* `parse_std_list` — the std-list parser with `...` (ellipsis) expansion
  and range validation, embedded over exact rationals at the token level;
* the checkpoint-directory discovery performed by `main` (regex filter,
  per-checkpoint record construction, synthetic "latest" records);
* the parameter accumulation performed by `EMARunner.__call__`;
* `std_to_exp` (largest real root of a cubic), `power_function_correlation`
  and `solve_posthoc_coefficients`, embedded over the reals.

Theorems at the end settle the specification claims against these
definitions.
-/

namespace ReconEma

/-! ## Std-list parser (`parse_std_list`, lines 14–46)

Floats are modelled as exact rationals; the input is modelled after the
string has been split on commas and each token converted, so a token is
`none` for the literal `'...'` and `some q` for a float literal, exactly
the content of the Python variable `raw`. -/

/-- Python 3 `round`: round to nearest integer, ties to the even neighbor. -/
def pyRound (q : ℚ) : ℤ :=
  let f : ℤ := ⌊q⌋
  if q - f < 1/2 then f
  else if 1/2 < q - f then f + 1
  else if Even f then f else f + 1

/-- Insert a value into an ascending list, keeping it ascending. -/
def insertAsc (x : ℚ) : List ℚ → List ℚ
  | [] => [x]
  | y :: ys => if x ≤ y then x :: y :: ys else y :: insertAsc x ys

/-- Ascending insertion sort. -/
def sortAsc (l : List ℚ) : List ℚ := l.foldr insertAsc []

/-- Python `set(...)`: the distinct values of a list. -/
def dedupQ : List ℚ → List ℚ
  | [] => []
  | x :: xs => let r := dedupQ xs; if x ∈ r then r else x :: r

/-- Python `sorted(set(out))`: distinct values in ascending order. -/
def sortedDedup (l : List ℚ) : List ℚ := sortAsc (dedupQ l)

def errPreceded : String := "'...' must be preceded by at least two floats"
def errFollowed : String := "'...' must be followed by at least one float"
def errEqual : String := "The floats preceding '...' must not be equal"
def errEmpty : String := "'...' must correspond to a non-empty interval"
def errUneven : String := "'...' must correspond to an evenly spaced interval"
def errRange : String :=
  "Relative standard deviation must be positive and less than 0.289"

/-- One iteration of the fill loop of `parse_std_list`: the values appended
to `out` for token `i` of `raw`, or the raised error.  A literal contributes
itself; an ellipsis is validated against `raw[i-2]`, `raw[i-1]`, `raw[i+1]`
and expands to `num` further arithmetic-progression points. -/
def expandAt (raw : List (Option ℚ)) (i : ℕ) : Except String (List ℚ) :=
  match raw.getD i none with
  | some v => .ok [v]
  | none =>
    if i < 2 then .error errPreceded
    else
      match raw.getD (i - 2) none, raw.getD (i - 1) none with
      | some p2, some p1 =>
        match raw.getD (i + 1) none with
        | some nxt =>
          if p2 = p1 then .error errEqual
          else
            let approx : ℚ := (nxt - p1) / (p1 - p2) - 1
            let num : ℤ := pyRound approx
            if num ≤ 0 then .error errEmpty
            else if 1/10000 < |(num : ℚ) - approx| then .error errUneven
            else .ok ((List.range num.toNat).map
              (fun j => p1 + (p1 - p2) * (j + 1)))
        | none => .error errFollowed
      | _, _ => .error errPreceded

/-- Runs `expandAt` on each index in turn, accumulating the `out` list and
propagating the first raised error. -/
def expandLoop (raw : List (Option ℚ)) (out : List ℚ) :
    List ℕ → Except String (List ℚ)
  | [] => .ok out
  | i :: is =>
    match expandAt raw i with
    | .error e => .error e
    | .ok vs => expandLoop raw (out ++ vs) is

/-- The fill loop of `parse_std_list`: builds `out` token by token. -/
def expandStds (raw : List (Option ℚ)) : Except String (List ℚ) :=
  expandLoop raw [] (List.range raw.length)

/-- Model of `parse_std_list` (string-input branch): fill loop, then
`sorted(set(out))`, then the (0, 0.289) range validation. -/
def parse_std_list (raw : List (Option ℚ)) : Except String (List ℚ) :=
  match expandStds raw with
  | .error e => .error e
  | .ok out =>
    let out := sortedDedup out
    if ∀ v ∈ out, 0 < v ∧ v < 289/1000
    then .ok out else .error errRange

/-! ## Checkpoint discovery (`main`, lines 153–189)

A checkpoint file is modelled by the data `main` reads from it: its file
name, the `cfg.ema.stds` list of its payload, and its stored global step.
`torch.load` and `dill` deserialization are treated as the identity on
this record.  The regex filter `re.match(r"epoch_(\d+).ckpt", name)` is
embedded with its true Python semantics: anchored at the start only, `.`
matching any single character, with backtracking for `\d+`. -/

structure CkptFile where
  name : String
  stds : List ℚ
  step : ℕ
deriving DecidableEq

/-- One `(step, std, source-file)` record, `model_params` in the source. -/
abbrev CkptRec := ℕ × ℚ × String

/-- After at least one digit of `epoch_(\d+).ckpt` has been consumed:
either the current character is the one matched by `.` and `ckpt` follows,
or it is a further digit and matching continues. -/
def epochTailMatch : List Char → Bool
  | [] => false
  | c :: rest =>
    (['c', 'k', 'p', 't'].isPrefixOf rest) || (c.isDigit && epochTailMatch rest)

/-- Whether `re.match(r"epoch_(\d+).ckpt", s)` succeeds (match anchored at the
start; trailing characters permitted). -/
def matchesEpochCkpt (s : String) : Bool :=
  match s.toList with
  | 'e' :: 'p' :: 'o' :: 'c' :: 'h' :: '_' :: d :: rest =>
    d.isDigit && epochTailMatch rest
  | _ => false

def errIndex : String := "IndexError: list index out of range"

/-- The records contributed by one directory entry of the scan loop: files
failing the regex are skipped; a matching file contributes
`(global_step, cfg.ema.stds[0], name)` and `(global_step, cfg.ema.stds[1], name)`,
the list indexing raising `IndexError` when fewer than two stds exist. -/
def scanFile (f : CkptFile) : Except String (List CkptRec) :=
  if matchesEpochCkpt f.name then
    match f.stds[0]?, f.stds[1]? with
    | some s0, some s1 => .ok [(f.step, s0, f.name), (f.step, s1, f.name)]
    | _, _ => .error errIndex
  else .ok []

/-- The directory scan loop: records accumulate in iteration order. -/
def scanAll : List CkptFile → Except String (List CkptRec)
  | [] => .ok []
  | f :: fs =>
    match scanFile f with
    | .error e => .error e
    | .ok r =>
      match scanAll fs with
      | .error e => .error e
      | .ok rest => .ok (r ++ rest)

/-- Record assembly of `main`: the scan of the checkpoint directory
followed by the two synthetic records `(workspace.global_step,
saved_stds[0], "latest.ckpt")` and `(workspace.global_step,
saved_stds[1], "latest.ckpt")`. -/
def discoverParams (files : List CkptFile) (latest : CkptFile) :
    Except String (List CkptRec) :=
  match scanAll files with
  | .error e => .error e
  | .ok scanned =>
    match latest.stds[0]?, latest.stds[1]? with
    | some s0, some s1 =>
      .ok (scanned ++ [(latest.step, s0, "latest.ckpt"),
                       (latest.step, s1, "latest.ckpt")])
    | _, _ => .error errIndex

/-- The records a successful scan produces, written out per file as the
spec describes them: two records per regex-matching file, taken from the
first two entries of that file's own std list. -/
def expectedScan : List CkptFile → List CkptRec
  | [] => []
  | f :: fs =>
    (if matchesEpochCkpt f.name then
      [(f.step, f.stds.getD 0 0, f.name), (f.step, f.stds.getD 1 0, f.name)]
    else []) ++ expectedScan fs

/-! ## EMA reconstruction (`EMARunner.__call__`, lines 94–126)

A model's parameter tensors are modelled as a list of reals (the flattened
parameter sequence).  A loaded checkpoint payload exposes the std list of
its configuration and one parameter vector per EMA variant, exactly what
`self.workspace.ema.get()` yields after `load_state_dict`.  The loading
environment is a function from file names to payloads. -/

structure CkptPayload where
  stds : List ℚ
  variants : List (List ℝ)

/-- Python `list.index`: index of the first occurrence, or `none`
(`ValueError`) when absent. -/
def listIndex (x : ℚ) : List ℚ → Option ℕ
  | [] => none
  | y :: ys => if y = x then some 0 else (listIndex x ys).map (· + 1)

/-- One `(step, std, file)` record of `sorted_params`. -/
structure SourceParam where
  step : ℕ
  std : ℚ
  file : String

/-- The EMA variant used for one record: the checkpoint is loaded, the
variant index is `cfg.ema.stds.index(std_in)`, and the variant is
`workspace.ema.get()[idx]`; `none` models the `ValueError`/`IndexError`
aborts. -/
def emaSelect (load : String → CkptPayload) (r : SourceParam) :
    Option (List ℝ) :=
  match listIndex r.std (load r.file).stds with
  | none => none
  | some idx => (load r.file).variants[idx]?

/-- One iteration of the accumulation loop: `p += ema_p * c` over the
zipped parameter sequences (`zip` stops at the shorter sequence; the
remaining accumulator entries are untouched). -/
def accumStep (load : String → CkptPayload) (acc : List ℝ)
    (rc : SourceParam × ℝ) : Option (List ℝ) :=
  match emaSelect load rc.1 with
  | none => none
  | some ema =>
    some (List.zipWith (fun p e => p + e * rc.2) acc ema ++ acc.drop ema.length)

/-- The accumulation loop of `EMARunner.__call__` over all
`(record, coefficient)` pairs, starting from the given buffer. -/
def emaReconstruct (load : String → CkptPayload)
    (records : List (SourceParam × ℝ)) (init : List ℝ) : Option (List ℝ) :=
  match records with
  | [] => some init
  | rc :: rest =>
    match accumStep load init rc with
    | none => none
    | some acc => emaReconstruct load rest acc

/-- The direct weighted sum `Σ_i c_i · v_i` of the selected variants,
computed independently of the accumulation loop. -/
noncomputable def weightedSum (load : String → CkptPayload)
    (records : List (SourceParam × ℝ)) (d : ℕ) : List ℝ :=
  (List.range d).map (fun j =>
    (records.map (fun rc =>
      rc.2 * (((emaSelect load rc.1).getD []).getD j 0))).sum)

/-! ## Power-function exponent (`std_to_exp`, lines 48–53)

`np.roots([1, 7, 16 - t, 12 - t])` returns the three complex roots of the
monic cubic; `.real.max()` takes the maximum of their real parts.  The
cubic is embedded exactly; the numerically computed maximum is embedded as
the supremum of the set of real parts of the complex roots. -/

/-- The cubic `x^3 + 7x^2 + (16 - t)x + (12 - t)` over the reals. -/
def cubic (t x : ℝ) : ℝ := x ^ 3 + 7 * x ^ 2 + (16 - t) * x + (12 - t)

/-- The same cubic over the complex numbers (the domain of `np.roots`). -/
def cubicC (t : ℝ) (z : ℂ) : ℂ :=
  z ^ 3 + 7 * z ^ 2 + ((16 : ℂ) - (t : ℂ)) * z + ((12 : ℂ) - (t : ℂ))

/-- The real parts of the complex roots of the cubic: the set of values of
the array `np.roots([1, 7, 16 - t, 12 - t]).real`. -/
def rootReParts (t : ℝ) : Set ℝ := {x | ∃ z : ℂ, cubicC t z = 0 ∧ z.re = x}

/-- Model of `np.roots(...).real.max()` for parameter `t`. -/
noncomputable def expOfT (t : ℝ) : ℝ := sSup (rootReParts t)

/-- Model of `std_to_exp` on a scalar: `t = std ** -2`, then the maximum real part
of the roots of the cubic. -/
noncomputable def std_to_exp (std : ℝ) : ℝ := expOfT ((std ^ 2)⁻¹)

/-- Model of `std_to_exp` on an array: elementwise application. -/
noncomputable def std_to_exp_vec (stds : List ℝ) : List ℝ :=
  stds.map std_to_exp

/-! ## Cross-correlation (`power_function_correlation`, lines 55–63) -/

/-- Model of `power_function_correlation(a_ofs, a_std, b_ofs, b_std)` on scalars.
`np.where(a_ofs < b_ofs, b_exp, -a_exp)` is the pointwise conditional and
`t_ratio ** t_exp` is the real power (numpy real power of a positive
base). -/
noncomputable def power_function_correlation
    (a_ofs a_std b_ofs b_std : ℝ) : ℝ :=
  let a_exp := std_to_exp a_std
  let b_exp := std_to_exp b_std
  let t_ratio := a_ofs / b_ofs
  let t_exp := if a_ofs < b_ofs then b_exp else -a_exp
  let t_max := max a_ofs b_ofs
  (a_exp + 1) * (b_exp + 1) * t_ratio ^ t_exp / ((a_exp + b_exp + 1) * t_max)

/-! ## Posthoc coefficient solver (`solve_posthoc_coefficients`,
lines 66–75)

Sources and targets enter as indexed families of (offset, std) pairs (the
result of `np.broadcast_arrays`).  `A` is the source/source correlation
matrix, `B` the source/target one; `np.linalg.solve(A, B)` is embedded as
`A⁻¹ * B` (the unique solution of `A·X = B` when `A` is nonsingular, the
only case in which the solve returns), and the result is column-normalized
by `X / np.sum(X, axis=0)`. -/

/-- The matrix `A = power_function_correlation(rv(in_ofs), rv(in_std),
cv(in_ofs), cv(in_std))`. -/
noncomputable def corrMatrixA {n : ℕ} (in_ofs in_std : Fin n → ℝ) :
    Matrix (Fin n) (Fin n) ℝ :=
  Matrix.of fun i j =>
    power_function_correlation (in_ofs i) (in_std i) (in_ofs j) (in_std j)

/-- The matrix `B = power_function_correlation(rv(in_ofs), rv(in_std),
cv(out_ofs), cv(out_std))`. -/
noncomputable def corrMatrixB {n m : ℕ} (in_ofs in_std : Fin n → ℝ)
    (out_ofs out_std : Fin m → ℝ) : Matrix (Fin n) (Fin m) ℝ :=
  Matrix.of fun i j =>
    power_function_correlation (in_ofs i) (in_std i) (out_ofs j) (out_std j)

/-- The solve `X = np.linalg.solve(A, B)`. -/
noncomputable def rawSolution {n m : ℕ} (in_ofs in_std : Fin n → ℝ)
    (out_ofs out_std : Fin m → ℝ) : Matrix (Fin n) (Fin m) ℝ :=
  (corrMatrixA in_ofs in_std)⁻¹ * corrMatrixB in_ofs in_std out_ofs out_std

/-- Model of `solve_posthoc_coefficients`: the raw solution with every column
divided by its sum. -/
noncomputable def solve_posthoc_coefficients {n m : ℕ}
    (in_ofs in_std : Fin n → ℝ) (out_ofs out_std : Fin m → ℝ) :
    Matrix (Fin n) (Fin m) ℝ :=
  Matrix.of fun i j =>
    rawSolution in_ofs in_std out_ofs out_std i j /
      ∑ k, rawSolution in_ofs in_std out_ofs out_std k j

/-! ## Supporting lemmas: the cubic and its roots -/

lemma cubic_factored (t x : ℝ) : cubic t x = (x+2)^2*(x+3) - t*(x+1) := by
  unfold cubic; ring

lemma cubicC_ofReal (t x : ℝ) : cubicC t (x : ℂ) = ((cubic t x : ℝ) : ℂ) := by
  unfold cubic cubicC; push_cast; ring

lemma continuous_cubic (t : ℝ) : Continuous (cubic t) := by
  unfold cubic; fun_prop

lemma cubic_neg_one (t : ℝ) : cubic t (-1) = 2 := by unfold cubic; ring

lemma cubic_two_fifth (t : ℝ) : cubic t (-(2/5)) = 832/125 - (3/5)*t := by
  unfold cubic; ring

lemma cubic_at_self (t : ℝ) (ht : 0 < t) : 0 < cubic t t := by
  unfold cubic; nlinarith

lemma cubic_low (t : ℝ) (ht : 59/5 ≤ t) : cubic t (-(t+5)) < 0 := by
  rw [cubic_factored]; nlinarith

/-- For `t ≥ 59/5` the cubic has three distinct real roots, located by sign
changes of `(x+2)^2(x+3) - t(x+1)`, and every complex root equals one of
them. -/
theorem cubic_three_roots (t : ℝ) (ht : 59/5 ≤ t) :
    ∃ r1 r2 r3 : ℝ,
      cubic t r1 = 0 ∧ cubic t r2 = 0 ∧ cubic t r3 = 0 ∧
      r1 < -1 ∧ -1 < r2 ∧ r2 < -(2/5) ∧ -(2/5) < r3 ∧ r3 < t ∧
      ∀ z : ℂ, cubicC t z = 0 → z = (r1 : ℂ) ∨ z = (r2 : ℂ) ∨ z = (r3 : ℂ) := by
  -- root r1 in [-(t+5), -1]
  have h1le : -(t+5) ≤ (-1 : ℝ) := by linarith
  have hf1 : cubic t (-(t+5)) < 0 := cubic_low t ht
  have hlo0 : (0 : ℝ) ∈ Set.Icc (cubic t (-(t+5))) (cubic t (-1)) := by
    rw [cubic_neg_one]; constructor <;> linarith
  obtain ⟨r1, hr1mem, hr1⟩ :=
    intermediate_value_Icc h1le ((continuous_cubic t).continuousOn) hlo0
  have hr1lt : r1 < -1 := by
    rcases lt_or_eq_of_le hr1mem.2 with h | h
    · exact h
    · exfalso; rw [h, cubic_neg_one] at hr1; norm_num at hr1
  -- root r2 in [-1, -2/5], falling sign change
  have h2le : (-1 : ℝ) ≤ -(2/5) := by norm_num
  have hf2 : cubic t (-(2/5)) < 0 := by rw [cubic_two_fifth]; linarith
  have hmid0 : (0 : ℝ) ∈ Set.Icc (cubic t (-(2/5))) (cubic t (-1)) := by
    rw [cubic_neg_one]; constructor <;> linarith
  obtain ⟨r2, hr2mem, hr2⟩ :=
    intermediate_value_Icc' h2le ((continuous_cubic t).continuousOn) hmid0
  have hr2gt : -1 < r2 := by
    rcases lt_or_eq_of_le hr2mem.1 with h | h
    · exact h
    · exfalso; rw [← h, cubic_neg_one] at hr2; norm_num at hr2
  have hr2lt : r2 < -(2/5) := by
    rcases lt_or_eq_of_le hr2mem.2 with h | h
    · exact h
    · exfalso; rw [h] at hr2; rw [hr2] at hf2; norm_num at hf2
  -- root r3 in [-2/5, t], rising sign change
  have h3le : -(2/5) ≤ t := by linarith
  have hft : 0 < cubic t t := cubic_at_self t (by linarith)
  have hhi0 : (0 : ℝ) ∈ Set.Icc (cubic t (-(2/5))) (cubic t t) := by
    constructor <;> linarith
  obtain ⟨r3, hr3mem, hr3⟩ :=
    intermediate_value_Icc h3le ((continuous_cubic t).continuousOn) hhi0
  have hr3gt : -(2/5) < r3 := by
    rcases lt_or_eq_of_le hr3mem.1 with h | h
    · exact h
    · exfalso; rw [← h] at hr3; rw [hr3] at hf2; norm_num at hf2
  have hr3lt : r3 < t := by
    rcases lt_or_eq_of_le hr3mem.2 with h | h
    · exact h
    · exfalso; rw [h] at hr3; rw [hr3] at hft; norm_num at hft
  -- pairwise distinct
  have h12 : r1 ≠ r2 := by intro h; rw [h] at hr1lt; linarith
  have h13 : r1 ≠ r3 := by intro h; rw [h] at hr1lt; linarith
  have h23 : r2 ≠ r3 := by intro h; rw [h] at hr2lt; linarith
  -- Vieta relations from the three root equations
  unfold cubic at hr1 hr2 hr3
  have hA12 : r1^2 + r1*r2 + r2^2 + 7*(r1+r2) + (16 - t) = 0 := by
    have hm : (r1 - r2) * (r1^2 + r1*r2 + r2^2 + 7*(r1+r2) + (16 - t)) = 0 := by
      linear_combination hr1 - hr2
    rcases mul_eq_zero.1 hm with h | h
    · exact absurd (sub_eq_zero.1 h) h12
    · exact h
  have hA13 : r1^2 + r1*r3 + r3^2 + 7*(r1+r3) + (16 - t) = 0 := by
    have hm : (r1 - r3) * (r1^2 + r1*r3 + r3^2 + 7*(r1+r3) + (16 - t)) = 0 := by
      linear_combination hr1 - hr3
    rcases mul_eq_zero.1 hm with h | h
    · exact absurd (sub_eq_zero.1 h) h13
    · exact h
  have hS1 : r1 + r2 + r3 = -7 := by
    have hm : (r2 - r3) * (r1 + r2 + r3 + 7) = 0 := by
      linear_combination hA12 - hA13
    rcases mul_eq_zero.1 hm with h | h
    · exact absurd (sub_eq_zero.1 h) h23
    · linarith
  have hS2 : r1*r2 + r1*r3 + r2*r3 = 16 - t := by
    linear_combination (r1 + r2) * hS1 - hA12
  have hS3 : r1*r2*r3 = t - 12 := by
    linear_combination hr1 + r1 * hS2 - r1^2 * hS1
  -- every complex root is one of r1, r2, r3
  refine ⟨r1, r2, r3, by unfold cubic; linarith, by unfold cubic; linarith,
    by unfold cubic; linarith, hr1lt, hr2gt, hr2lt, hr3gt, hr3lt, ?_⟩
  intro z hz
  have hC1 : (r1 : ℂ) + r2 + r3 = -7 := by
    exact_mod_cast congrArg Complex.ofReal hS1
  have hC2 : (r1 : ℂ)*r2 + r1*r3 + r2*r3 = 16 - (t : ℂ) := by
    have := congrArg Complex.ofReal hS2; push_cast at this; exact_mod_cast this
  have hC3 : (r1 : ℂ)*r2*r3 = (t : ℂ) - 12 := by
    have := congrArg Complex.ofReal hS3; push_cast at this; exact_mod_cast this
  have hfact : (z - r1) * (z - r2) * (z - r3) = 0 := by
    unfold cubicC at hz
    linear_combination hz - z^2 * hC1 + z * hC2 - hC3
  rcases mul_eq_zero.1 hfact with h | h
  · rcases mul_eq_zero.1 h with h' | h'
    · exact Or.inl (sub_eq_zero.1 h')
    · exact Or.inr (Or.inl (sub_eq_zero.1 h'))
  · exact Or.inr (Or.inr (sub_eq_zero.1 h))

/-- For `t ≥ 59/5`, `expOfT t` is a real root of the cubic, dominates the
real part of every complex root, and lies strictly between `-2/5` and `t`. -/
theorem expOfT_spec (t : ℝ) (ht : 59/5 ≤ t) :
    cubic t (expOfT t) = 0 ∧
    (∀ z : ℂ, cubicC t z = 0 → z.re ≤ expOfT t) ∧
    -(2/5) < expOfT t ∧ expOfT t < t := by
  obtain ⟨r1, r2, r3, hc1, hc2, hc3, hb1, hb2a, hb2b, hb3a, hb3b, hall⟩ :=
    cubic_three_roots t ht
  have hset : rootReParts t = {r1, r2, r3} := by
    ext x
    constructor
    · rintro ⟨z, hz, hre⟩
      rcases hall z hz with h | h | h <;>
        · subst h; simp [← hre, Complex.ofReal_re]
    · intro hx
      rcases hx with h | h | h
      · exact ⟨(r1 : ℂ), by rw [cubicC_ofReal, hc1]; norm_num, by simp [h]⟩
      · exact ⟨(r2 : ℂ), by rw [cubicC_ofReal, hc2]; norm_num, by simp [h]⟩
      · exact ⟨(r3 : ℂ), by rw [cubicC_ofReal, hc3]; norm_num,
          by simp [Set.mem_singleton_iff.1 h]⟩
  have hmax : expOfT t = r3 := by
    unfold expOfT
    rw [hset]
    apply le_antisymm
    · apply csSup_le ⟨r3, by simp⟩
      intro x hx
      rcases hx with h | h | h
      · subst h; linarith
      · subst h; linarith
      · rw [Set.mem_singleton_iff.1 h]
    · exact le_csSup (Set.toFinite _).bddAbove (by simp)
  rw [hmax]
  refine ⟨hc3, ?_, hb3a, hb3b⟩
  intro z hz
  rcases hall z hz with h | h | h <;> subst h <;> simp [Complex.ofReal_re] <;>
    linarith

lemma cubic_root_le_expOfT (t : ℝ) (ht : 59/5 ≤ t) (x : ℝ)
    (hx : cubic t x = 0) : x ≤ expOfT t := by
  have h := (expOfT_spec t ht).2.1 (x : ℂ)
    (by rw [cubicC_ofReal, hx]; norm_num)
  simpa using h

theorem expOfT_pos (t : ℝ) (ht : 12 < t) : 0 < expOfT t := by
  have ht' : 59/5 ≤ t := by linarith
  have h0 : cubic t 0 < 0 := by unfold cubic; nlinarith
  have htt : 0 < cubic t t := cubic_at_self t (by linarith)
  obtain ⟨x0, hx0mem, hx0⟩ := intermediate_value_Icc
    (show (0:ℝ) ≤ t by linarith) ((continuous_cubic t).continuousOn)
    (Set.mem_Icc.2 ⟨le_of_lt h0, le_of_lt htt⟩)
  have hx0pos : 0 < x0 := by
    rcases lt_or_eq_of_le hx0mem.1 with h | h
    · exact h
    · exfalso; rw [← h] at hx0; rw [hx0] at h0; norm_num at h0
  exact lt_of_lt_of_le hx0pos (cubic_root_le_expOfT t ht' x0 hx0)

theorem expOfT_strictMono (t1 t2 : ℝ) (h2 : 59/5 ≤ t2) (h12 : t2 < t1) :
    expOfT t2 < expOfT t1 := by
  have h1 : 59/5 ≤ t1 := by linarith
  obtain ⟨he2root, _, he2lo, he2hi⟩ := expOfT_spec t2 h2
  set e2 := expOfT t2 with he2def
  have hneg : cubic t1 e2 < 0 := by
    have hid : cubic t1 e2 = cubic t2 e2 - (t1 - t2) * (e2 + 1) := by
      unfold cubic; ring
    rw [hid, he2root]
    nlinarith
  have hpos : 0 < cubic t1 t1 := cubic_at_self t1 (by linarith)
  obtain ⟨x1, hx1mem, hx1⟩ := intermediate_value_Icc
    (show e2 ≤ t1 by linarith) ((continuous_cubic t1).continuousOn)
    (Set.mem_Icc.2 ⟨le_of_lt hneg, le_of_lt hpos⟩)
  have hx1gt : e2 < x1 := by
    rcases lt_or_eq_of_le hx1mem.1 with h | h
    · exact h
    · exfalso; rw [← h] at hx1; rw [hx1] at hneg; norm_num at hneg
  exact lt_of_lt_of_le hx1gt (cubic_root_le_expOfT t1 h1 x1 hx1)

/-! ## Supporting lemmas: the std-to-t bridge -/

lemma t_in_range (std : ℝ) (h0 : 0 < std) (h1 : std < 289/1000) :
    59/5 ≤ (std ^ 2)⁻¹ := by
  have hsq : std ^ 2 < (289/1000) ^ 2 := by nlinarith
  have hpos : 0 < std ^ 2 := by positivity
  have hinv : ((289/1000 : ℝ) ^ 2)⁻¹ < (std ^ 2)⁻¹ := by
    apply inv_strictAnti₀ hpos hsq
  have hnum : (59/5 : ℝ) ≤ (((289:ℝ)/1000) ^ 2)⁻¹ := by norm_num
  linarith

lemma t_gt_12 (std : ℝ) (h0 : 0 < std) (h1 : std ^ 2 < 1/12) :
    12 < (std ^ 2)⁻¹ := by
  have hpos : 0 < std ^ 2 := by positivity
  have hinv : ((1:ℝ)/12)⁻¹ < (std ^ 2)⁻¹ := inv_strictAnti₀ hpos h1
  norm_num at hinv
  linarith

lemma t_mono (s1 s2 : ℝ) (h0 : 0 < s1) (h12 : s1 < s2) :
    (s2 ^ 2)⁻¹ < (s1 ^ 2)⁻¹ := by
  have h1 : 0 < s1 ^ 2 := by positivity
  have hsq : s1 ^ 2 < s2 ^ 2 := by nlinarith
  exact inv_strictAnti₀ h1 hsq

theorem std_to_exp_pos (std : ℝ) (h0 : 0 < std) (h1 : std ^ 2 < 1/12) :
    0 < std_to_exp std :=
  expOfT_pos _ (t_gt_12 std h0 h1)

theorem std_to_exp_anti (s1 s2 : ℝ) (h0 : 0 < s1) (h12 : s1 < s2)
    (h2 : s2 < 289/1000) : std_to_exp s2 < std_to_exp s1 :=
  expOfT_strictMono _ _ (t_in_range s2 (by linarith) h2) (t_mono s1 s2 h0 h12)

/-! ## Supporting lemmas: the one-source correlation system -/

/-- Sample source family for the solver: one source at offset 1, std 1/5. -/
noncomputable def srcOfs1 : Fin 1 → ℝ := fun _ => 1

/-- Sample std family paired with `srcOfs1`. -/
noncomputable def srcStd1 : Fin 1 → ℝ := fun _ => 1/5

lemma pfc_self_pos : 0 < power_function_correlation 1 (1/5) 1 (1/5) := by
  have he : 0 < std_to_exp (1/5) :=
    std_to_exp_pos (1/5) (by norm_num) (by norm_num)
  simp only [power_function_correlation]
  rw [if_neg (lt_irrefl (1:ℝ))]
  norm_num [Real.one_rpow]
  apply div_pos
  · nlinarith
  · nlinarith

lemma detA1_isUnit : IsUnit (corrMatrixA srcOfs1 srcStd1).det := by
  rw [Matrix.det_fin_one]
  have h : corrMatrixA srcOfs1 srcStd1 0 0 =
      power_function_correlation 1 (1/5) 1 (1/5) := rfl
  rw [h]
  exact (ne_of_gt pfc_self_pos).isUnit

lemma rawSolution1_eq_one :
    rawSolution srcOfs1 srcStd1 srcOfs1 srcStd1 = 1 := by
  unfold rawSolution
  have h : corrMatrixB srcOfs1 srcStd1 srcOfs1 srcStd1 =
      corrMatrixA srcOfs1 srcStd1 := rfl
  rw [h]
  exact Matrix.nonsing_inv_mul _ detA1_isUnit

lemma rawSolution1_colsum : ∀ j : Fin 1,
    ∑ k, rawSolution srcOfs1 srcStd1 srcOfs1 srcStd1 k j ≠ 0 := by
  intro j
  rw [Fin.sum_univ_one, rawSolution1_eq_one]
  fin_cases j
  simp [Matrix.one_apply]

/-! ## Supporting lemmas: parser evaluations -/

lemma expand_one_to_five :
    expandStds [some 1, some 2, none, some 5] = .ok [1, 2, 3, 4, 5] := by
  have hr : List.range 4 = [0, 1, 2, 3] := by decide
  have h2 : List.range (Int.toNat 2) = [0, 1] := by decide
  simp only [expandStds, List.length_cons, List.length_nil, hr]
  norm_num [expandLoop, expandAt, pyRound, h2]

lemma parse_one_to_five :
    parse_std_list [some 1, some 2, none, some 5] = .error errRange := by
  have hr : List.range 4 = [0, 1, 2, 3] := by decide
  have h2 : List.range (Int.toNat 2) = [0, 1] := by decide
  simp only [parse_std_list, expandStds, List.length_cons, List.length_nil, hr]
  norm_num [expandLoop, expandAt, pyRound, h2, sortedDedup, dedupQ, sortAsc,
    insertAsc]

lemma parse_hundredths :
    parse_std_list [some (1/100), some (2/100), none, some (5/100)] =
      .ok [1/100, 1/50, 3/100, 1/25, 1/20] := by
  have hr : List.range 4 = [0, 1, 2, 3] := by decide
  have h2 : List.range (Int.toNat 2) = [0, 1] := by decide
  simp only [parse_std_list, expandStds, List.length_cons, List.length_nil, hr]
  norm_num [expandLoop, expandAt, pyRound, h2, sortedDedup, dedupQ, sortAsc,
    insertAsc]

/-! ## Supporting lemmas: the directory scan -/

lemma scanFile_error_eq (f : CkptFile) (e : String)
    (h : scanFile f = .error e) : e = errIndex := by
  unfold scanFile at h
  split at h
  · rcases h0 : f.stds[0]? with _ | s0 <;> rcases h1 : f.stds[1]? with _ | s1 <;>
      rw [h0, h1] at h <;> simp_all
  · simp_all

lemma scanAll_ok (files : List CkptFile)
    (h : ∀ f ∈ files, matchesEpochCkpt f.name = true → 2 ≤ f.stds.length) :
    scanAll files = .ok (expectedScan files) := by
  induction files with
  | nil => rfl
  | cons f fs ih =>
    have hf := h f (List.mem_cons_self f fs)
    have hrest := ih (fun g hg hm => h g (List.mem_cons_of_mem f hg) hm)
    rcases hm : matchesEpochCkpt f.name with _ | _
    · simp only [scanAll, scanFile, hm, Bool.false_eq_true, if_false, hrest,
        expectedScan, List.nil_append]
    · have hlen := hf hm
      have h0 : f.stds[0]? = some (f.stds.getD 0 0) := by
        rw [List.getElem?_eq_getElem (by omega),
          List.getD_eq_getElem _ _ (by omega)]
      have h1 : f.stds[1]? = some (f.stds.getD 1 0) := by
        rw [List.getElem?_eq_getElem (by omega),
          List.getD_eq_getElem _ _ (by omega)]
      simp only [scanAll, scanFile, hm, if_true, h0, h1, hrest, expectedScan]

lemma scanAll_error (files : List CkptFile) (f : CkptFile)
    (hmem : f ∈ files) (hm : matchesEpochCkpt f.name = true)
    (hlen : f.stds.length < 2) : scanAll files = .error errIndex := by
  induction files with
  | nil => simp at hmem
  | cons g gs ih =>
    rcases List.mem_cons.1 hmem with heq | htail
    · subst heq
      have h1 : f.stds[1]? = none := List.getElem?_eq_none (by omega)
      rcases h0 : f.stds[0]? with _ | s0 <;>
        simp only [scanAll, scanFile, hm, if_true, h0, h1]
    · rcases hg : scanFile g with e | r
      · rw [scanFile_error_eq g e hg] at hg
        simp only [scanAll, hg]
      · simp only [scanAll, hg, ih htail]

lemma expectedScan_name (files : List CkptFile) (r : CkptRec)
    (hr : r ∈ expectedScan files) : ∃ f ∈ files,
      matchesEpochCkpt f.name = true ∧ r.2.2 = f.name := by
  induction files with
  | nil => simp [expectedScan] at hr
  | cons f fs ih =>
    simp only [expectedScan] at hr
    rcases List.mem_append.1 hr with h | h
    · rcases hm : matchesEpochCkpt f.name with _ | _
      · rw [hm] at h; simp at h
      · simp only [hm, if_true, eq_self_iff_true, List.mem_cons,
          List.not_mem_nil, or_false] at h
        rcases h with rfl | rfl
        · exact ⟨f, List.mem_cons_self f fs, hm, rfl⟩
        · exact ⟨f, List.mem_cons_self f fs, hm, rfl⟩
    · obtain ⟨g, hg, hgm, hgr⟩ := ih h
      exact ⟨g, List.mem_cons_of_mem f hg, hgm, hgr⟩

/-- Sample directory for witnesses: one regex-matching epoch file carrying
three stds and one non-matching file. -/
def sampleFiles : List CkptFile :=
  [⟨"epoch_3.ckpt", [1/10, 1/5, 3/10], 4⟩, ⟨"notes.txt", [], 0⟩]

/-- Sample latest checkpoint with two saved stds. -/
def sampleLatest : CkptFile := ⟨"latest.ckpt", [1/10, 1/5], 9⟩

/-! ## Supporting lemmas: the accumulation loop -/

lemma map_range_getD (l : List ℝ) :
    (List.range l.length).map (fun j => l.getD j 0) = l := by
  apply List.ext_getElem
  · simp
  · intro i h1 h2
    simp [List.getD, List.getElem?_eq_getElem h2]

/-- The accumulation loop, run from any buffer of matching length, lands on
the pointwise sum of the buffer and the coefficient-weighted variants. -/
theorem ema_reconstruct_eq (load : String → CkptPayload)
    (records : List (SourceParam × ℝ)) (d : ℕ)
    (h : ∀ rc ∈ records, ∃ v, emaSelect load rc.1 = some v ∧ v.length = d) :
    ∀ acc : List ℝ, acc.length = d →
      emaReconstruct load records acc =
        some ((List.range d).map (fun j => acc.getD j 0 +
          (records.map (fun rc =>
            rc.2 * (((emaSelect load rc.1).getD []).getD j 0))).sum)) := by
  induction records with
  | nil =>
    intro acc hacc
    simp only [emaReconstruct, List.map_nil, List.sum_nil, add_zero]
    rw [← hacc, map_range_getD]
  | cons rc rest ih =>
    intro acc hacc
    obtain ⟨v, hv, hvlen⟩ := h rc (List.mem_cons_self rc rest)
    simp only [emaReconstruct, accumStep, hv]
    have hdrop : acc.drop v.length = [] := by
      rw [List.drop_eq_nil_iff]
      omega
    rw [hdrop, List.append_nil]
    have hlen' : (List.zipWith (fun p e => p + e * rc.2) acc v).length = d := by
      rw [List.length_zipWith]; omega
    rw [ih (fun r hr => h r (List.mem_cons_of_mem rc hr)) _ hlen']
    congr 1
    apply List.map_congr_left
    intro j hj
    rw [List.mem_range] at hj
    have hjacc : j < acc.length := by omega
    have hjv : j < v.length := by omega
    have hzip : (List.zipWith (fun p e => p + e * rc.2) acc v).getD j 0 =
        acc.getD j 0 + v.getD j 0 * rc.2 := by
      rw [List.getD_eq_getElem _ _ (by rw [hlen']; omega),
          List.getD_eq_getElem _ _ hjacc, List.getD_eq_getElem _ _ hjv,
          List.getElem_zipWith]
    rw [hzip]
    simp only [List.map_cons, List.sum_cons, hv, Option.getD_some]
    ring

/-- Sample loading environment: every file yields a payload with stds
`[1/10, 1/5]` and one parameter vector per std. -/
noncomputable def sampleLoad : String → CkptPayload :=
  fun _ => ⟨[1/10, 1/5], [[2, 4], [10, 20]]⟩

/-- Sample record list: one record at std 1/5 with coefficient 1/2. -/
noncomputable def sampleRecords : List (SourceParam × ℝ) :=
  [(⟨0, 1/5, "epoch_1.ckpt"⟩, 1/2)]

lemma sampleSelect :
    emaSelect sampleLoad (⟨0, 1/5, "epoch_1.ckpt"⟩ : SourceParam) =
      some [10, 20] := by
  norm_num [emaSelect, sampleLoad, listIndex]

lemma sampleRecords_ok : ∀ rc ∈ sampleRecords,
    ∃ v, emaSelect sampleLoad rc.1 = some v ∧ v.length = 2 := by
  intro rc hrc
  have h : rc = ((⟨0, 1/5, "epoch_1.ckpt"⟩ : SourceParam), (1/2 : ℝ)) := by
    simpa [sampleRecords] using hrc
  subst h
  exact ⟨[10, 20], sampleSelect, rfl⟩

/-! ## Claim theorems -/

/-- C1: on any sources and targets for which the linear solve succeeds
(the correlation matrix `A` is nonsingular) and no column of the raw
solution sums to zero, every column of the matrix returned by
`solve_posthoc_coefficients` sums to exactly 1, so each target's
reconstruction coefficients form an affine combination over the sources. -/
theorem solve_posthoc_columns_sum_one {n m : ℕ} (in_ofs in_std : Fin n → ℝ)
    (out_ofs out_std : Fin m → ℝ)
    (hA : IsUnit (corrMatrixA in_ofs in_std).det)
    (hS : ∀ j, ∑ k, rawSolution in_ofs in_std out_ofs out_std k j ≠ 0) :
    ∀ j, ∑ i, solve_posthoc_coefficients in_ofs in_std out_ofs out_std i j
      = 1 := by
  intro j
  unfold solve_posthoc_coefficients
  simp only [Matrix.of_apply]
  rw [← Finset.sum_div]
  exact div_self (hS j)

/-- Witness for C1: one source at offset 1 and std 1/5 and the same profile
as the single target give a nonsingular 1×1 system with nonzero column sum,
and the returned column sums to 1. -/
theorem solve_posthoc_columns_sum_one_witness :
    IsUnit (corrMatrixA srcOfs1 srcStd1).det ∧
    (∑ k, rawSolution srcOfs1 srcStd1 srcOfs1 srcStd1 k 0 ≠ 0) ∧
    ∑ i, solve_posthoc_coefficients srcOfs1 srcStd1 srcOfs1 srcStd1 i 0 = 1 :=
  ⟨detA1_isUnit, rawSolution1_colsum 0,
    solve_posthoc_columns_sum_one srcOfs1 srcStd1 srcOfs1 srcStd1
      detA1_isUnit rawSolution1_colsum 0⟩

/-- C2: for positive offsets and stds in (0, 0.289), the correlation equals
`(a_exp+1)(b_exp+1)·(a_ofs/b_ofs)^e / ((a_exp+b_exp+1)·max(a_ofs,b_ofs))`
with `e = b_exp` when `a_ofs < b_ofs` and `e = -a_exp` otherwise, the
asymmetric tie-break applying `-a_exp` when the offsets are equal. -/
theorem power_function_correlation_formula (a_ofs a_std b_ofs b_std : ℝ)
    (ha : 0 < a_ofs) (hb : 0 < b_ofs)
    (has0 : 0 < a_std) (has1 : a_std < 289/1000)
    (hbs0 : 0 < b_std) (hbs1 : b_std < 289/1000) :
    (a_ofs < b_ofs →
      power_function_correlation a_ofs a_std b_ofs b_std =
        (std_to_exp a_std + 1) * (std_to_exp b_std + 1) *
          (a_ofs / b_ofs) ^ (std_to_exp b_std) /
          ((std_to_exp a_std + std_to_exp b_std + 1) * b_ofs)) ∧
    (b_ofs ≤ a_ofs →
      power_function_correlation a_ofs a_std b_ofs b_std =
        (std_to_exp a_std + 1) * (std_to_exp b_std + 1) *
          (a_ofs / b_ofs) ^ (-(std_to_exp a_std)) /
          ((std_to_exp a_std + std_to_exp b_std + 1) * a_ofs)) := by
  constructor
  · intro hlt
    simp only [power_function_correlation]
    rw [if_pos hlt, max_eq_right (le_of_lt hlt)]
  · intro hge
    simp only [power_function_correlation]
    rw [if_neg (not_lt.2 hge), max_eq_left hge]

/-- Witness for C2: offsets 1 and 2 with stds 1/5 and 1/4 satisfy the
hypotheses, and both conditional formulas hold there. -/
theorem power_function_correlation_formula_witness :
    ((0:ℝ) < 1 ∧ (0:ℝ) < 2 ∧ (0:ℝ) < 1/5 ∧ (1/5:ℝ) < 289/1000 ∧
      (0:ℝ) < 1/4 ∧ (1/4:ℝ) < 289/1000) ∧
    (((1:ℝ) < 2 →
      power_function_correlation 1 (1/5) 2 (1/4) =
        (std_to_exp (1/5) + 1) * (std_to_exp (1/4) + 1) *
          ((1:ℝ) / 2) ^ (std_to_exp (1/4)) /
          ((std_to_exp (1/5) + std_to_exp (1/4) + 1) * 2)) ∧
    ((2:ℝ) ≤ 1 →
      power_function_correlation 1 (1/5) 2 (1/4) =
        (std_to_exp (1/5) + 1) * (std_to_exp (1/4) + 1) *
          ((1:ℝ) / 2) ^ (-(std_to_exp (1/5))) /
          ((std_to_exp (1/5) + std_to_exp (1/4) + 1) * 1))) :=
  ⟨⟨by norm_num, by norm_num, by norm_num, by norm_num, by norm_num,
    by norm_num⟩,
    power_function_correlation_formula 1 (1/5) 2 (1/4) (by norm_num)
      (by norm_num) (by norm_num) (by norm_num) (by norm_num) (by norm_num)⟩

/-- C3: for every std in (0, 0.289), `std_to_exp std` is a real root of the
cubic `x^3 + 7x^2 + (16-t)x + (12-t)` with `t = std^-2` and dominates every
real root, i.e. it is the largest real root (the maximum being taken over
the real parts of the complex roots); on array input it operates
elementwise, preserving length. -/
theorem std_to_exp_largest_real_root :
    (∀ std : ℝ, 0 < std → std < 289/1000 →
      cubic ((std ^ 2)⁻¹) (std_to_exp std) = 0 ∧
      ∀ x : ℝ, cubic ((std ^ 2)⁻¹) x = 0 → x ≤ std_to_exp std) ∧
    (∀ l : List ℝ, (std_to_exp_vec l).length = l.length ∧
      ∀ i, i < l.length →
        (std_to_exp_vec l).getD i 0 = std_to_exp (l.getD i 0)) := by
  constructor
  · intro std h0 h1
    have ht := t_in_range std h0 h1
    constructor
    · exact (expOfT_spec _ ht).1
    · intro x hx
      exact cubic_root_le_expOfT _ ht x hx
  · intro l
    constructor
    · simp [std_to_exp_vec]
    · intro i hi
      rw [List.getD_eq_getElem _ _ (by simpa [std_to_exp_vec] using hi),
          List.getD_eq_getElem _ _ hi]
      simp [std_to_exp_vec]

/-- Witness for C3: std 1/5 lies in (0, 0.289) and the returned exponent is
a root of the cubic at `t = 25`. -/
theorem std_to_exp_largest_real_root_witness :
    (0 < (1/5 : ℝ) ∧ (1/5 : ℝ) < 289/1000) ∧
    cubic (((1/5 : ℝ) ^ 2)⁻¹) (std_to_exp (1/5)) = 0 :=
  ⟨⟨by norm_num, by norm_num⟩,
    (std_to_exp_largest_real_root.1 (1/5) (by norm_num) (by norm_num)).1⟩

/-- C4: when the single target profile equals source `k` and the source
correlation matrix is nonsingular, `solve_posthoc_coefficients` returns
coefficient 1 on source `k` and 0 on every other source. -/
theorem solve_posthoc_exact_match {n : ℕ} (in_ofs in_std : Fin n → ℝ)
    (k : Fin n) (hA : IsUnit (corrMatrixA in_ofs in_std).det) :
    ∀ i, solve_posthoc_coefficients in_ofs in_std
      (fun _ : Fin 1 => in_ofs k) (fun _ : Fin 1 => in_std k) i 0 =
      if i = k then 1 else 0 := by
  have hB : corrMatrixB in_ofs in_std
      (fun _ : Fin 1 => in_ofs k) (fun _ : Fin 1 => in_std k) =
      Matrix.of fun i (_ : Fin 1) => corrMatrixA in_ofs in_std i k := rfl
  have hraw : ∀ i, rawSolution in_ofs in_std
      (fun _ : Fin 1 => in_ofs k) (fun _ : Fin 1 => in_std k) i 0 =
      (1 : Matrix (Fin n) (Fin n) ℝ) i k := by
    intro i
    unfold rawSolution
    rw [hB]
    rw [← Matrix.nonsing_inv_mul (corrMatrixA in_ofs in_std) hA]
    simp [Matrix.mul_apply]
  have hsum : ∑ i, rawSolution in_ofs in_std
      (fun _ : Fin 1 => in_ofs k) (fun _ : Fin 1 => in_std k) i 0 = 1 := by
    rw [Finset.sum_congr rfl (fun i _ => hraw i)]
    simp [Matrix.one_apply]
  intro i
  unfold solve_posthoc_coefficients
  simp only [Matrix.of_apply]
  rw [hsum, hraw i, Matrix.one_apply, div_one]

/-- Witness for C4: with the single source (offset 1, std 1/5) as its own
target, the system is nonsingular and the coefficient on that source is 1. -/
theorem solve_posthoc_exact_match_witness :
    IsUnit (corrMatrixA srcOfs1 srcStd1).det ∧
    solve_posthoc_coefficients srcOfs1 srcStd1
      (fun _ : Fin 1 => srcOfs1 0) (fun _ : Fin 1 => srcStd1 0) 0 0 =
      if (0 : Fin 1) = 0 then 1 else 0 :=
  ⟨detA1_isUnit, solve_posthoc_exact_match srcOfs1 srcStd1 0 detA1_isUnit 0⟩

/-- C5: when every record's EMA variant (selected from its checkpoint's std
list by the recorded std) exists with the buffer's length, the accumulation
loop of `EMARunner.__call__`, started from a zero-initialized buffer,
returns exactly the weighted sum `Σ_i c_i · v_i` of the selected variants,
computed independently. -/
theorem ema_reconstruct_weighted_sum (load : String → CkptPayload)
    (records : List (SourceParam × ℝ)) (d : ℕ)
    (h : ∀ rc ∈ records, ∃ v, emaSelect load rc.1 = some v ∧ v.length = d) :
    emaReconstruct load records (List.replicate d 0) =
      some (weightedSum load records d) := by
  rw [ema_reconstruct_eq load records d h (List.replicate d 0)
    (List.length_replicate d 0)]
  unfold weightedSum
  congr 1
  apply List.map_congr_left
  intro j hj
  rw [List.mem_range] at hj
  rw [List.getD_eq_getElem _ _ (by simpa using hj)]
  simp

/-- Witness for C5: a one-record configuration whose selected variant is
`[10, 20]` with coefficient 1/2 satisfies the hypothesis, and the loop
returns the weighted sum. -/
theorem ema_reconstruct_weighted_sum_witness :
    (∀ rc ∈ sampleRecords,
      ∃ v, emaSelect sampleLoad rc.1 = some v ∧ v.length = 2) ∧
    emaReconstruct sampleLoad sampleRecords (List.replicate 2 0) =
      some (weightedSum sampleLoad sampleRecords 2) :=
  ⟨sampleRecords_ok,
    ema_reconstruct_weighted_sum sampleLoad sampleRecords 2 sampleRecords_ok⟩

/-- Counterexample to C6: `parse_std_list` on the tokens of
"1.0,2.0,...,5.0" raises the range-validation error rather than returning
the arithmetic sequence {1, 2, 3, 4, 5}. -/
theorem parse_ellipsis_example_counterexample :
    parse_std_list [some 1, some 2, none, some 5] = .error errRange ∧
    parse_std_list [some 1, some 2, none, some 5] ≠ .ok [1, 2, 3, 4, 5] := by
  refine ⟨parse_one_to_five, ?_⟩
  intro h
  rw [parse_one_to_five] at h
  exact Except.noConfusion h

/-- C6 amended: on "1.0,2.0,...,5.0" the ellipsis expansion does compute
exactly the arithmetic sequence {1, 2, 3, 4, 5} — the ellipsis standing for
the whole number of evenly spaced points continuing the progression of the
two preceding literals up to the following literal — but `parse_std_list`
then raises the range error because those values lie outside (0, 0.289); on
the in-range analogue "0.01,0.02,...,0.05" it returns exactly
{0.01, 0.02, 0.03, 0.04, 0.05}. -/
theorem parse_ellipsis_expansion_amended :
    expandStds [some 1, some 2, none, some 5] = .ok [1, 2, 3, 4, 5] ∧
    parse_std_list [some 1, some 2, none, some 5] = .error errRange ∧
    parse_std_list [some (1/100), some (2/100), none, some (5/100)] =
      .ok [1/100, 1/50, 3/100, 1/25, 1/20] :=
  ⟨expand_one_to_five, parse_one_to_five, parse_hundredths⟩

/-- Counterexample to C7: with an empty directory scan, the assembled
record list contains two records whose source file is `latest.ckpt`, not
exactly one. -/
theorem latest_record_unique_counterexample :
    discoverParams [] sampleLatest =
      .ok [(9, 1/10, "latest.ckpt"), (9, 1/5, "latest.ckpt")] ∧
    ¬ ([((9 : ℕ), (1/10 : ℚ), "latest.ckpt"), (9, 1/5, "latest.ckpt")].filter
        (fun r => r.2.2 = "latest.ckpt")).length = 1 := by
  constructor
  · simp [discoverParams, scanAll, sampleLatest]
  · decide

/-- C7 amended: the assembled record list consists of the records
discovered by scanning the checkpoint directory plus exactly one synthetic
latest checkpoint contributing two records (one per saved std): exactly two
records in the list have source file `latest.ckpt`. -/
theorem latest_records_count_two (files : List CkptFile) (latest : CkptFile)
    (hf : ∀ f ∈ files, matchesEpochCkpt f.name = true → 2 ≤ f.stds.length)
    (hl : 2 ≤ latest.stds.length) :
    ∃ l, discoverParams files latest = .ok l ∧
      (l.filter (fun r => r.2.2 = "latest.ckpt")).length = 2 := by
  refine ⟨expectedScan files ++
    [(latest.step, latest.stds.getD 0 0, "latest.ckpt"),
     (latest.step, latest.stds.getD 1 0, "latest.ckpt")], ?_, ?_⟩
  · have h0 : latest.stds[0]? = some (latest.stds.getD 0 0) := by
      rw [List.getElem?_eq_getElem (by omega),
        List.getD_eq_getElem _ _ (by omega)]
    have h1 : latest.stds[1]? = some (latest.stds.getD 1 0) := by
      rw [List.getElem?_eq_getElem (by omega),
        List.getD_eq_getElem _ _ (by omega)]
    simp only [discoverParams, scanAll_ok files hf, h0, h1]
  · rw [List.filter_append]
    have hscan : (expectedScan files).filter
        (fun r => r.2.2 = "latest.ckpt") = [] := by
      rw [List.filter_eq_nil_iff]
      intro r hr
      obtain ⟨f, _, hm, hname⟩ := expectedScan_name files r hr
      simp only [decide_eq_true_eq]
      intro hcontra
      rw [hcontra] at hname
      have hlatest : matchesEpochCkpt "latest.ckpt" = false := by decide
      rw [← hname] at hm
      rw [hlatest] at hm
      exact Bool.false_ne_true hm
    rw [hscan]
    rfl

/-- Witness for C7 (amended): the sample directory satisfies the
hypotheses, and the assembled list contains exactly two latest records. -/
theorem latest_records_count_two_witness :
    (∀ f ∈ sampleFiles, matchesEpochCkpt f.name = true →
      2 ≤ f.stds.length) ∧
    2 ≤ sampleLatest.stds.length ∧
    ∃ l, discoverParams sampleFiles sampleLatest = .ok l ∧
      (l.filter (fun r => r.2.2 = "latest.ckpt")).length = 2 :=
  ⟨by decide, by decide,
    latest_records_count_two sampleFiles sampleLatest (by decide) (by decide)⟩

/-- C8: `parse_std_list` raises, with a distinct error message each, when
the two floats preceding an ellipsis are equal; when the computed point
count is not a positive integer within tolerance 1e-4 (on
"1.0,2.0,...,4.5" via the tolerance check and on "2.0,1.0,...,0.5" via the
positivity check); when the ellipsis is not preceded by two literals; when
it is not followed by a literal; and when any resulting value falls outside
(0, 0.289).  All raised messages are pairwise distinct. -/
theorem parse_std_list_validation_errors :
    (∀ x y : ℚ,
      parse_std_list [some x, some x, none, some y] = .error errEqual) ∧
    (parse_std_list [some 1, some 2, none, some (9/2)] = .error errUneven) ∧
    (parse_std_list [some 2, some 1, none, some (1/2)] = .error errEmpty) ∧
    (∀ x y : ℚ,
      parse_std_list [some x, none, some y] = .error errPreceded) ∧
    (∀ x y : ℚ,
      parse_std_list [some x, some y, none] = .error errFollowed) ∧
    (parse_std_list [some (3/10)] = .error errRange) ∧
    List.Pairwise (· ≠ ·)
      [errPreceded, errFollowed, errEqual, errEmpty, errUneven, errRange] := by
  have hr : List.range 4 = [0, 1, 2, 3] := by decide
  refine ⟨?_, ?_, ?_, ?_, ?_, ?_, ?_⟩
  · intro x y
    simp [parse_std_list, expandStds, expandLoop, expandAt, hr]
  · have habs : |(1:ℚ)/2| = 1/2 := by rw [abs_of_pos]; norm_num
    simp only [parse_std_list, expandStds, List.length_cons,
      List.length_nil, hr]
    norm_num [expandLoop, expandAt, pyRound, habs]
  · simp only [parse_std_list, expandStds, List.length_cons,
      List.length_nil, hr]
    norm_num [expandLoop, expandAt, pyRound]
  · intro x y
    simp [parse_std_list, expandStds, expandLoop, expandAt, List.range_succ]
  · intro x y
    simp [parse_std_list, expandStds, expandLoop, expandAt, List.range_succ]
  · simp only [parse_std_list, expandStds, List.length_cons, List.length_nil]
    norm_num [expandLoop, expandAt, List.range_succ, sortedDedup, dedupQ,
      sortAsc, insertAsc]
  · decide

/-- Counterexample to C9: std 0.2888 lies in the claimed domain (0, 0.289)
yet its exponent is negative, because positivity in fact fails from
`12^(-1/2) ≈ 0.2887` upward. -/
theorem std_to_exp_positivity_counterexample :
    0 < (2888/10000 : ℝ) ∧ (2888/10000 : ℝ) < 289/1000 ∧
    std_to_exp (2888/10000) < 0 := by
  refine ⟨by norm_num, by norm_num, ?_⟩
  have hT : (((2888:ℝ)/10000) ^ 2)⁻¹ = 1562500/130321 := by norm_num
  unfold std_to_exp
  rw [hT]
  have ht : (59/5 : ℝ) ≤ 1562500/130321 := by norm_num
  obtain ⟨hroot, -, -, -⟩ := expOfT_spec (1562500/130321) ht
  by_contra hle
  push_neg at hle
  have hpos : 0 < cubic (1562500/130321) (expOfT (1562500/130321)) := by
    unfold cubic; nlinarith
  rw [hroot] at hpos
  norm_num at hpos

/-- C9 amended: `std_to_exp` is strictly positive for std in
(0, 12^(-1/2)) — stated as `std^2 < 1/12`, rather than on all of
(0, 0.289) — and is strictly decreasing throughout (0, 0.289). -/
theorem std_to_exp_positive_monotone :
    (∀ std : ℝ, 0 < std → std ^ 2 < 1/12 → 0 < std_to_exp std) ∧
    (∀ s1 s2 : ℝ, 0 < s1 → s1 < s2 → s2 < 289/1000 →
      std_to_exp s2 < std_to_exp s1) :=
  ⟨std_to_exp_pos, std_to_exp_anti⟩

/-- Witness for C9 (amended): at stds 1/5 and 1/4 the hypotheses hold, the
exponent at 1/5 is positive, and the exponent decreases from 1/5 to 1/4. -/
theorem std_to_exp_positive_monotone_witness :
    (0 < (1/5 : ℝ) ∧ ((1/5 : ℝ)) ^ 2 < 1/12 ∧ (1/5 : ℝ) < 1/4 ∧
      (1/4 : ℝ) < 289/1000) ∧
    0 < std_to_exp (1/5) ∧ std_to_exp (1/4) < std_to_exp (1/5) :=
  ⟨⟨by norm_num, by norm_num, by norm_num, by norm_num⟩,
    std_to_exp_positive_monotone.1 (1/5) (by norm_num) (by norm_num),
    std_to_exp_positive_monotone.2 (1/5) (1/4) (by norm_num) (by norm_num)
      (by norm_num)⟩

/-- C10: when every regex-matching file and the latest checkpoint carry at
least two stds, discovery succeeds and each matching file contributes
exactly two records built from the first two entries of its own std list
(later entries ignored); discovery fails with the index error as soon as
any matching file, or the latest checkpoint, has fewer than two stds. -/
theorem checkpoint_discovery_records :
    (∀ (files : List CkptFile) (latest : CkptFile),
      (∀ f ∈ files, matchesEpochCkpt f.name = true → 2 ≤ f.stds.length) →
      2 ≤ latest.stds.length →
      discoverParams files latest = .ok (expectedScan files ++
        [(latest.step, latest.stds.getD 0 0, "latest.ckpt"),
         (latest.step, latest.stds.getD 1 0, "latest.ckpt")])) ∧
    (∀ (files : List CkptFile) (latest : CkptFile) (f : CkptFile),
      f ∈ files → matchesEpochCkpt f.name = true → f.stds.length < 2 →
      discoverParams files latest = .error errIndex) ∧
    (∀ (files : List CkptFile) (latest : CkptFile),
      (∀ f ∈ files, matchesEpochCkpt f.name = true → 2 ≤ f.stds.length) →
      latest.stds.length < 2 →
      discoverParams files latest = .error errIndex) := by
  refine ⟨?_, ?_, ?_⟩
  · intro files latest hf hl
    have h0 : latest.stds[0]? = some (latest.stds.getD 0 0) := by
      rw [List.getElem?_eq_getElem (by omega),
        List.getD_eq_getElem _ _ (by omega)]
    have h1 : latest.stds[1]? = some (latest.stds.getD 1 0) := by
      rw [List.getElem?_eq_getElem (by omega),
        List.getD_eq_getElem _ _ (by omega)]
    simp only [discoverParams, scanAll_ok files hf, h0, h1]
  · intro files latest f hmem hm hlen
    simp only [discoverParams, scanAll_error files f hmem hm hlen]
  · intro files latest hf hl
    have h1 : latest.stds[1]? = none := List.getElem?_eq_none (by omega)
    rcases h0 : latest.stds[0]? with _ | s0 <;>
      simp only [discoverParams, scanAll_ok files hf, h0, h1]

/-- Witness for C10: the sample directory (one matching epoch file with a
third std that is ignored, one non-matching file) satisfies the success
hypotheses and produces the per-file records plus the two latest records. -/
theorem checkpoint_discovery_records_witness :
    (∀ f ∈ sampleFiles, matchesEpochCkpt f.name = true →
      2 ≤ f.stds.length) ∧
    2 ≤ sampleLatest.stds.length ∧
    discoverParams sampleFiles sampleLatest = .ok (expectedScan sampleFiles ++
      [(sampleLatest.step, sampleLatest.stds.getD 0 0, "latest.ckpt"),
       (sampleLatest.step, sampleLatest.stds.getD 1 0, "latest.ckpt")]) :=
  ⟨by decide, by decide,
    checkpoint_discovery_records.1 sampleFiles sampleLatest (by decide)
      (by decide)⟩

end ReconEma
